import Mathlib

/-!
Verification development for the append-only transaction ledger with
Merkle-proof receipts implemented in `Backend/main.py` of the
3Mosqueteros-HACKMTY repository.

The embedding is byte-level and executable: bytes are `Nat` values below 256,
digests are lowercase hexadecimal `String`s exactly as produced by Python
`hashlib.sha256(...).hexdigest()`, and every function mirrors the source
line by line.  Machine words are `Nat` with explicit reduction modulo `2 ^ 32`.
-/

namespace QuantumWallet

/-! ## SHA-256 (the `hashlib.sha256` collaborator, byte-for-byte) -/

/-- Reduce a natural number to a 32-bit word. -/
def w32 (x : Nat) : Nat := x % 4294967296

/-- 32-bit addition. -/
def add32 (a b : Nat) : Nat := (a + b) % 4294967296

/-- 32-bit right rotation of a word `x < 2 ^ 32` by `n` bits. -/
def rotr32 (n x : Nat) : Nat := ((x >>> n) ||| (x <<< (32 - n))) % 4294967296

/-- Bitwise complement on 32-bit words. -/
def not32 (x : Nat) : Nat := x ^^^ 4294967295

def shaCh (x y z : Nat) : Nat := (x &&& y) ^^^ (not32 x &&& z)

def shaMaj (x y z : Nat) : Nat := (x &&& y) ^^^ (x &&& z) ^^^ (y &&& z)

def bigSigma0 (x : Nat) : Nat := rotr32 2 x ^^^ rotr32 13 x ^^^ rotr32 22 x

def bigSigma1 (x : Nat) : Nat := rotr32 6 x ^^^ rotr32 11 x ^^^ rotr32 25 x

def smallSigma0 (x : Nat) : Nat := rotr32 7 x ^^^ rotr32 18 x ^^^ (x >>> 3)

def smallSigma1 (x : Nat) : Nat := rotr32 17 x ^^^ rotr32 19 x ^^^ (x >>> 10)

/-- The 64 SHA-256 round constants, written in decimal. -/
def shaK : List Nat :=
  [1116352408, 1899447441, 3049323471, 3921009573, 961987163, 1508970993,
   2453635748, 2870763221, 3624381080, 310598401, 607225278, 1426881987,
   1925078388, 2162078206, 2614888103, 3248222580, 3835390401, 4022224774,
   264347078, 604807628, 770255983, 1249150122, 1555081692, 1996064986,
   2554220882, 2821834349, 2952996808, 3210313671, 3336571891, 3584528711,
   113926993, 338241895, 666307205, 773529912, 1294757372, 1396182291,
   1695183700, 1986661051, 2177026350, 2456956037, 2730485921, 2820302411,
   3259730800, 3345764771, 3516065817, 3600352804, 4094571909, 275423344,
   430227734, 506948616, 659060556, 883997877, 958139571, 1322822218,
   1537002063, 1747873779, 1955562222, 2024104815, 2227730452, 2361852424,
   2428436474, 2756734187, 3204031479, 3329325298]

/-- The initial SHA-256 state, written in decimal. -/
def shaH0 : List Nat :=
  [1779033703, 3144134277, 1013904242, 2773480762,
   1359893119, 2600822924, 528734635, 1541459225]

/-- Group a byte list into big-endian 32-bit words (groups of 4). -/
def bytesToWords : List Nat → List Nat
  | a :: b :: c :: d :: rest =>
      (a * 16777216 + b * 65536 + c * 256 + d) :: bytesToWords rest
  | _ => []

/-- Extend the 16-word message schedule by `n` further words. -/
def extendSchedule : Nat → List Nat → List Nat
  | 0, ws => ws
  | n + 1, ws =>
      extendSchedule n (ws ++
        [(smallSigma1 (ws.getD (ws.length - 2) 0) + ws.getD (ws.length - 7) 0 +
          smallSigma0 (ws.getD (ws.length - 15) 0) + ws.getD (ws.length - 16) 0) %
          4294967296])

/-- One SHA-256 round on the eight-word working state. -/
def shaRound (st : List Nat) (k w : Nat) : List Nat :=
  let a := st.getD 0 0
  let b := st.getD 1 0
  let c := st.getD 2 0
  let d := st.getD 3 0
  let e := st.getD 4 0
  let f := st.getD 5 0
  let g := st.getD 6 0
  let h := st.getD 7 0
  let t1 := (h + bigSigma1 e + shaCh e f g + k + w) % 4294967296
  let t2 := (bigSigma0 a + shaMaj a b c) % 4294967296
  [(t1 + t2) % 4294967296, a, b, c, (d + t1) % 4294967296, e, f, g]

/-- Compress one 64-byte block into the running hash state. -/
def shaCompress (h8 : List Nat) (block : List Nat) : List Nat :=
  let ws := extendSchedule 48 (bytesToWords block)
  let st := (List.zip shaK ws).foldl (fun st kw => shaRound st kw.1 kw.2) h8
  (List.zip h8 st).map (fun ab => add32 ab.1 ab.2)

/-- The 8-byte big-endian encoding of the bit length. -/
def lengthBytes (n : Nat) : List Nat :=
  [(n >>> 56) &&& 255, (n >>> 48) &&& 255, (n >>> 40) &&& 255, (n >>> 32) &&& 255,
   (n >>> 24) &&& 255, (n >>> 16) &&& 255, (n >>> 8) &&& 255, n &&& 255]

/-- Merkle-Damgard padding: append 0x80, zeros to 56 mod 64, then the bit length. -/
def padMessage (msg : List Nat) : List Nat :=
  msg ++ [128] ++ List.replicate ((119 - msg.length % 64) % 64) 0 ++
    lengthBytes (msg.length * 8)

/-- Split a byte list into 64-byte chunks (fuel-indexed; the fuel argument
bounds the number of chunks, `l.length` is always sufficient). -/
def splitChunks : Nat → List Nat → List (List Nat)
  | 0, _ => []
  | _ + 1, [] => []
  | fuel + 1, l => l.take 64 :: splitChunks fuel (l.drop 64)

/-- The 4 big-endian bytes of a 32-bit word. -/
def wordBytes (w : Nat) : List Nat :=
  [(w >>> 24) &&& 255, (w >>> 16) &&& 255, (w >>> 8) &&& 255, w &&& 255]

/-- SHA-256 of a byte string, as a list of 32 bytes. -/
def sha256 (msg : List Nat) : List Nat :=
  let padded := padMessage msg
  ((splitChunks padded.length padded).foldl shaCompress shaH0).flatMap wordBytes

/-! ## Hexadecimal digests (`hexdigest`, `bytes.fromhex`, `str.lower`) -/

/-- The lowercase hexadecimal digit for a nibble. -/
def hexDigitChar (n : Nat) : Char :=
  if n < 10 then Char.ofNat (48 + n) else Char.ofNat (87 + n)

/-- Lowercase hexadecimal rendering of a byte list, as Python `hexdigest`. -/
def hexEncode (bs : List Nat) : String :=
  ⟨bs.flatMap (fun b => [hexDigitChar (b / 16), hexDigitChar (b % 16)])⟩

/-- Source `sha256_hex`: `hashlib.sha256(data).hexdigest()`. -/
def sha256_hex (data : List Nat) : String := hexEncode (sha256 data)

/-- Value of one hexadecimal digit character, if it is one. -/
def hexDigitVal (c : Char) : Option Nat :=
  if 48 ≤ c.toNat ∧ c.toNat ≤ 57 then some (c.toNat - 48)
  else if 97 ≤ c.toNat ∧ c.toNat ≤ 102 then some (c.toNat - 87)
  else if 65 ≤ c.toNat ∧ c.toNat ≤ 70 then some (c.toNat - 55)
  else none

/-- Parse pairs of hexadecimal digits into bytes; `none` on a non-digit or an
odd count, mirroring the `ValueError` of `bytes.fromhex` (the whitespace
tolerance of `bytes.fromhex` is not modelled; no digest in this system
contains whitespace). -/
def hexPairs : List Char → Option (List Nat)
  | [] => some []
  | [_] => none
  | a :: b :: rest =>
      match hexDigitVal a, hexDigitVal b, hexPairs rest with
      | some x, some y, some bs => some ((x * 16 + y) :: bs)
      | _, _, _ => none

/-- Python `bytes.fromhex`, with failure made explicit as `Option`. -/
def hexDecode (s : String) : Option (List Nat) := hexPairs s.data

/-- Total variant of `bytes.fromhex` for call sites where the argument is
always a digest just produced by `sha256_hex` (never fails there). -/
def hexBytes (s : String) : List Nat := (hexDecode s).getD []

/-- ASCII lowercasing of one character, as Python `str.lower` acts on the
ASCII hexadecimal digests compared in `verify_receipt`. -/
def lowerChar (c : Char) : Char :=
  if 65 ≤ c.toNat ∧ c.toNat ≤ 90 then Char.ofNat (c.toNat + 32) else c

/-- Python `str.lower` on ASCII strings. -/
def lowerStr (s : String) : String := ⟨s.data.map lowerChar⟩

/-- UTF-8 bytes of one code point. -/
def utf8Char (n : Nat) : List Nat :=
  if n < 128 then [n]
  else if n < 2048 then [192 + n / 64, 128 + n % 64]
  else if n < 65536 then [224 + n / 4096, 128 + n / 64 % 64, 128 + n % 64]
  else [240 + n / 262144, 128 + n / 4096 % 64, 128 + n / 64 % 64, 128 + n % 64]

/-- Python `str.encode()`: the UTF-8 bytes of a string. -/
def utf8Bytes (s : String) : List Nat := s.data.flatMap (fun c => utf8Char c.toNat)

/-! ## Merkle tree builder (`merkle_root_and_proofs`, transcribed exactly)

The Python builds the tree with a `while len(level) > 1` loop over mutable
`level`, `idx_map`, `proofs` lists.  The transcription renders one loop
iteration as one `merkleWhile` step (fuel-indexed, `leaves.length` fuel always
suffices since each iteration at least halves the level) and the inner
`for i in range(0, len(level), 2)` as `pairLoop`, consuming the level two
nodes at a time while carrying the absolute position `i`.  The index
bookkeeping — including the guards `child_pos < len(idx_map)` and
`child < len(idx_map)` and the value `len(next_level) - 1` appended to
`next_idx_map` — is kept exactly as written in the source, bugs included. -/

/-- One entry of a Merkle proof: the Pydantic `ProofItem` model. -/
structure ProofItem where
  dir : String
  hash : String
deriving DecidableEq, Repr

/-- Python `proofs[j].append(item)` on a list of lists (out-of-range `j`
never occurs on the source paths). -/
def appendAt (ps : List (List ProofItem)) (j : Nat) (item : ProofItem) :
    List (List ProofItem) :=
  ps.set j (ps.getD j [] ++ [item])

/-- The body of `for i in range(0, len(level), 2)`: `idxMap` is the loop
round's fixed `idx_map`, the second argument is the unprocessed tail of
`level`, `i` the absolute position of its head, and the last three arguments
accumulate `next_level`, `next_idx_map` and `proofs`. -/
def pairLoop (idxMap : List Nat) :
    List String → Nat → List String → List Nat → List (List ProofItem) →
    List String × List Nat × List (List ProofItem)
  | [], _, nl, nim, ps => (nl, nim, ps)
  | [l], i, nl, nim, ps =>
      let parent := sha256_hex (hexBytes l ++ hexBytes l)
      let nl2 := nl ++ [parent]
      let ps1 := if i < idxMap.length then appendAt ps (idxMap.getD i 0) ⟨"R", l⟩ else ps
      let ps2 := if i < idxMap.length then appendAt ps1 (idxMap.getD i 0) ⟨"L", l⟩ else ps1
      let nim1 := if i < idxMap.length then nim ++ [nl2.length - 1] else nim
      let nim2 := if i + 1 < idxMap.length then nim1 ++ [nl2.length - 1] else nim1
      (nl2, nim2, ps2)
  | l :: r :: rest, i, nl, nim, ps =>
      let parent := sha256_hex (hexBytes l ++ hexBytes r)
      let nl2 := nl ++ [parent]
      let ps1 := if i < idxMap.length then appendAt ps (idxMap.getD i 0) ⟨"R", r⟩ else ps
      let ps2 := if i + 1 < idxMap.length then appendAt ps1 (idxMap.getD (i + 1) 0) ⟨"L", l⟩ else ps1
      let nim1 := if i < idxMap.length then nim ++ [nl2.length - 1] else nim
      let nim2 := if i + 1 < idxMap.length then nim1 ++ [nl2.length - 1] else nim1
      pairLoop idxMap rest (i + 2) nl2 nim2 ps2

/-- The `while len(level) > 1` loop; after it, `root = level[0] if level
else sha256_hex(b"")`. -/
def merkleWhile : Nat → List String → List Nat → List (List ProofItem) →
    String × List (List ProofItem)
  | 0, level, _, ps => (level.headD (sha256_hex []), ps)
  | fuel + 1, level, idxMap, ps =>
      if level.length > 1 then
        let t := pairLoop idxMap level 0 [] [] ps
        merkleWhile fuel t.1 t.2.1 t.2.2
      else (level.headD (sha256_hex []), ps)

/-- Source `merkle_root_and_proofs`: build the Merkle tree over the given
leaves and return the root digest together with one proof list per leaf. -/
def merkle_root_and_proofs (leaves : List (List Nat)) :
    String × List (List ProofItem) :=
  if leaves.isEmpty then (sha256_hex [], [])
  else
    merkleWhile leaves.length (leaves.map sha256_hex) (List.range leaves.length)
      (leaves.map fun _ => [])

/-! ## Pydantic models and canonical payload serialization -/

/-- The Pydantic `TransactionPayload`.  The source declares `amount: float`;
the embedding restricts it to integer-valued amounts (an `Int`), which Python
serializes as `<n>.0` — the float-specific formatting of non-integral amounts
is the only part of the model not carried over, and no claim depends on it. -/
structure TransactionPayload where
  from_wallet : String
  «to» : String
  amount : Int
  currency : String
  nonce : Int
  timestamp : Int
deriving DecidableEq, Repr

/-- Pydantic v1 `payload.json()`: `json.dumps` of the field dict in
declaration order with default separators.  String fields are emitted without
escaping (none of the claims involves strings needing JSON escapes). -/
def payloadJson (p : TransactionPayload) : String :=
  "\x7b\"from_wallet\": \"" ++ p.from_wallet ++ "\", \"to\": \"" ++ p.«to» ++
    "\", \"amount\": " ++ toString p.amount ++ ".0, \"currency\": \"" ++
    p.currency ++ "\", \"nonce\": " ++ toString p.nonce ++
    ", \"timestamp\": " ++ toString p.timestamp ++ "\x7d"

/-- The Pydantic `BlockHeader` model. -/
structure BlockHeader where
  index : Nat
  sealed_at : Int
  merkle_root : String
deriving DecidableEq, Repr

/-- The Pydantic `QuantumReceipt` model. -/
structure QuantumReceipt where
  tx : TransactionPayload
  sig_pqc : String
  pubkey_pqc : String
  block_header : BlockHeader
  merkle_proof : List ProofItem
deriving DecidableEq, Repr

/-- The Pydantic `VerifyResponse` model. -/
structure VerifyResponse where
  valid : Bool
  reason : Option String
deriving DecidableEq, Repr

/-! ## The verifier (`verify_receipt`) -/

/-- One iteration of the proof-replay loop in `verify_receipt`: combine the
running digest with the sibling digest, sibling first exactly when the step
carries `dir == "L"`.  A `bytes.fromhex` failure (non-hexadecimal input)
is the `none` case, caught by the handler in `verify_receipt`. -/
def replayStep (tx_hash : String) (item : ProofItem) : Option String :=
  match hexDecode item.hash, hexDecode tx_hash with
  | some sib, some cur =>
      some (sha256_hex (if item.dir = "L" then sib ++ cur else cur ++ sib))
  | _, _ => none

/-- The full replay loop of `verify_receipt` over the ordered proof steps. -/
def replayProof : String → List ProofItem → Option String
  | cur, [] => some cur
  | cur, item :: rest =>
      match replayStep cur item with
      | some nxt => replayProof nxt rest
      | none => none

/-- Source `verify_receipt`: check signature presence, replay the Merkle
proof from the recomputed payload digest, and compare with the header root
case-insensitively.  The surrounding `try/except` returns a
`VerifyResponse(valid=False, reason=f"Verification error: ...")` on any
exception; the embedding makes the only possible exception (a `ValueError`
from `bytes.fromhex`) explicit and models the interpolated message by its
constant prefix. -/
def verify_receipt (r : QuantumReceipt) : VerifyResponse :=
  let payload_hash := sha256_hex (utf8Bytes (payloadJson r.tx))
  if r.sig_pqc = "" then ⟨false, some "Missing signature"⟩
  else
    match replayProof payload_hash r.merkle_proof with
    | none => ⟨false, some "Verification error"⟩
    | some tx_hash =>
        if lowerStr tx_hash = lowerStr r.block_header.merkle_root then ⟨true, none⟩
        else ⟨false, some "Merkle proof verification failed"⟩

/-! ## Database rows and the ledger store

One `Store` value is the committed content of the three ledger tables plus
the wallets table.  `proof_json` holds the parsed proof list; the
`json.dumps`/`json.loads` round trip between `seal_block` and `get_receipt`
is modelled as the identity. -/

/-- A row of the `transactions` table. -/
structure TxRow where
  id : String
  wallet_id : String
  to_wallet : String
  amount : Int
  currency : String
  nonce : Int
  timestamp : Int
  payload_hash : String
  sig_pqc : String
  status : String
  block_id : Option String
deriving DecidableEq, Repr

/-- A row of the `blocks` table. -/
structure BlockRow where
  id : String
  index : Nat
  sealed_at : Int
  merkle_root : String
deriving DecidableEq, Repr

/-- A row of the `merkle_proofs` table. -/
structure ProofRow where
  tx_id : String
  block_id : String
  proof_json : List ProofItem
deriving DecidableEq, Repr

/-- A row of the `wallets` table. -/
structure WalletRow where
  id : String
  user_id : String
  pubkey_pqc : Option String
deriving DecidableEq, Repr

/-- The committed database state. -/
@[ext]
structure Store where
  txs : List TxRow
  blocks : List BlockRow
  proofs : List ProofRow
  wallets : List WalletRow
deriving DecidableEq, Repr

/-- The freshly created database. -/
def emptyStore : Store := ⟨[], [], [], []⟩

/-- The query `db.query(Transaction).filter(Transaction.status == "pending").all()`,
in table order. -/
def pendingTxs (s : Store) : List TxRow :=
  s.txs.filter fun t => t.status == "pending"

/-! ## The SQLAlchemy session, as staged operations plus one commit

`seal_block` mutates loaded ORM objects and `db.add`s new rows, all of which
only stage changes in the session (`autoflush=False`); the single
`db.commit()` on its last line persists them atomically.  The embedding makes
this explicit: a `DbOp` is one staged mutation, a `DbAction` is either
staging one operation or committing the session, and a session pairs the
committed store with the staged operation list.  A failed attempt executes a
proper prefix of the action list and then rolls back, which discards the
staged operations and leaves the committed store untouched. -/

/-- One mutation staged in the session during `seal_block`. -/
inductive DbOp where
  | addBlock : BlockRow → DbOp
  | confirmTx : String → String → DbOp
  | addProof : ProofRow → DbOp
deriving DecidableEq, Repr

/-- Confirmation of one transaction row, as the sealing commit applies it. -/
def confirmRow (bid : String) (t : TxRow) : TxRow :=
  { t with status := "confirmed", block_id := some bid }

/-- Apply one staged mutation to the store (what the commit does for it:
an `INSERT` for added rows, an `UPDATE ... WHERE id = tx_id` setting
`status` and `block_id` for a confirmed transaction). -/
def applyOp (s : Store) : DbOp → Store
  | .addBlock b => { s with blocks := s.blocks ++ [b] }
  | .confirmTx tid bid =>
      { s with txs := s.txs.map fun t => if t.id = tid then confirmRow bid t else t }
  | .addProof pr => { s with proofs := s.proofs ++ [pr] }

/-- A SQLAlchemy session: committed store plus staged operations. -/
structure DbSession where
  committed : Store
  staged : List DbOp
deriving DecidableEq, Repr

/-- One step of a database-touching routine: stage a mutation, or commit. -/
inductive DbAction where
  | stage : DbOp → DbAction
  | commit : DbAction
deriving DecidableEq, Repr

/-- Execute one action on the session. -/
def runAction (ss : DbSession) : DbAction → DbSession
  | .stage op => { ss with staged := ss.staged ++ [op] }
  | .commit => { committed := ss.staged.foldl applyOp ss.committed, staged := [] }

/-- Session rollback: staged operations are discarded. -/
def rollbackSession (ss : DbSession) : DbSession := { ss with staged := [] }

/-- The two mutations the seal loop body stages for one pending transaction
paired with its issued proof: the confirmation and the `MerkleProof` row. -/
def pairOps (block_id : String) (tp : TxRow × List ProofItem) : List DbOp :=
  [DbOp.confirmTx tp.1.id block_id, DbOp.addProof ⟨tp.1.id, block_id, tp.2⟩]

/-- The mutations `seal_block` stages for a non-empty pending snapshot, in
source order: the new `Block` row, then per pending transaction (in snapshot
order) its confirmation and its `MerkleProof` row.  The block index is
`db.query(Block).count() + 1` and the leaves fed to the tree builder are the
UTF-8 bytes of each payload hash (`tx.payload_hash.encode()`). -/
def seal_ops (s : Store) (block_id : String) (sealed_at : Int) : List DbOp :=
  let pending := pendingTxs s
  let rp := merkle_root_and_proofs (pending.map fun t => utf8Bytes t.payload_hash)
  DbOp.addBlock ⟨block_id, s.blocks.length + 1, sealed_at, rp.1⟩ ::
    (List.zip pending rp.2).flatMap (pairOps block_id)

/-- The full action trace of a seal attempt on a non-empty snapshot: stage
everything, then the one commit on the routine's last line. -/
def seal_program (s : Store) (block_id : String) (sealed_at : Int) : List DbAction :=
  (seal_ops s block_id sealed_at).map DbAction.stage ++ [DbAction.commit]

/-- Source `seal_block`: no-op on an empty pending set, otherwise run the
seal program in a fresh session and keep its committed store.  The
nondeterministic inputs `generate_id()` and `int(time.time())` enter as the
`block_id` and `sealed_at` arguments. -/
def seal_block (s : Store) (block_id : String) (sealed_at : Int) : Store :=
  if (pendingTxs s).isEmpty then s
  else ((seal_program s block_id sealed_at).foldl runAction ⟨s, []⟩).committed

/-- A seal attempt that fails after `k` executed actions (a storage error
raised before the program completes): the session rolls back and only its
committed store remains. -/
def seal_attempt_failed (s : Store) (block_id : String) (sealed_at : Int)
    (k : Nat) : Store :=
  (rollbackSession (((seal_program s block_id sealed_at).take k).foldl
    runAction ⟨s, []⟩)).committed

/-! ## The endpoints touching ledger state -/

/-- Source `create_wallet`: insert a wallet row. -/
def create_wallet (s : Store) (wallet_id user_id : String)
    (pubkey_pqc : Option String) : Store :=
  { s with wallets := s.wallets ++ [⟨wallet_id, user_id, pubkey_pqc⟩] }

/-- Source `submit_transaction`: insert the transaction as `pending` with no
block reference, commit, then — the inlined batch-boundary policy — seal a
block when the pending count has reached 3. -/
def submit_transaction (s : Store) (p : TransactionPayload) (sig_pqc : String)
    (tx_id block_id : String) (sealed_at : Int) : Store :=
  let row : TxRow :=
    { id := tx_id, wallet_id := p.from_wallet, to_wallet := p.«to»,
      amount := p.amount, currency := p.currency, nonce := p.nonce,
      timestamp := p.timestamp,
      payload_hash := sha256_hex (utf8Bytes (payloadJson p)),
      sig_pqc := sig_pqc, status := "pending", block_id := none }
  let s1 : Store := { s with txs := s.txs ++ [row] }
  if 3 ≤ (pendingTxs s1).length then seal_block s1 block_id sealed_at else s1

/-- Source `get_receipt`: `HTTPException` outcomes on the left (status code
and detail), the assembled receipt on the right.  The source reads
`wallet.pubkey_pqc or ""` without checking the wallet query for `None`; a
missing wallet row raises an `AttributeError`, surfaced by FastAPI as a
generic 500 — modelled as the `(500, "Internal Server Error")` case. -/
def get_receipt (s : Store) (tx_id : String) :
    Except (Nat × String) QuantumReceipt :=
  match s.txs.find? (fun t => t.id == tx_id) with
  | none => .error (404, "Transaction not found")
  | some tx =>
      if tx.status ≠ "confirmed" then .error (400, "Transaction not yet confirmed")
      else
        match (match tx.block_id with
               | none => none
               | some bid => s.blocks.find? fun (b : BlockRow) => b.id == bid),
              s.proofs.find? (fun pr => pr.tx_id == tx_id) with
        | some block, some pr =>
            match s.wallets.find? (fun (w : WalletRow) => w.id == tx.wallet_id) with
            | none => .error (500, "Internal Server Error")
            | some w =>
                .ok { tx := { from_wallet := tx.wallet_id, «to» := tx.to_wallet,
                              amount := tx.amount, currency := tx.currency,
                              nonce := tx.nonce, timestamp := tx.timestamp },
                      sig_pqc := tx.sig_pqc,
                      pubkey_pqc := w.pubkey_pqc.getD "",
                      block_header := { index := block.index,
                                        sealed_at := block.sealed_at,
                                        merkle_root := block.merkle_root },
                      merkle_proof := pr.proof_json }
        | _, _ => .error (500, "Receipt data incomplete")

/-! ## Reachable ledger states

The states a ledger can be in after any interleaving of the mutating
endpoints, starting from the freshly created database.  Submission ids come
from `generate_id()`; their only property used anywhere is freshness, which
the `submit` rule records as a hypothesis. -/

/-- Ledger states reachable through the mutating operations of the source. -/
inductive Reachable : Store → Prop where
  | init : Reachable emptyStore
  | wallet (s : Store) (wid uid : String) (pk : Option String) :
      Reachable s → Reachable (create_wallet s wid uid pk)
  | submit (s : Store) (p : TransactionPayload) (sig tx_id bid : String) (ts : Int) :
      Reachable s → (∀ t ∈ s.txs, t.id ≠ tx_id) →
      Reachable (submit_transaction s p sig tx_id bid ts)
  | seal (s : Store) (bid : String) (ts : Int) :
      Reachable s → Reachable (seal_block s bid ts)

/-! ## Helper functions and sample data used by the proofs below -/

/-- The effect of one staged mutation on one already-present transaction row
(the transaction component of `applyOp`, one row at a time). -/
def stepTx (t : TxRow) : DbOp → TxRow
  | .confirmTx tid bid => if t.id = tid then confirmRow bid t else t
  | _ => t

/-- The block row inserted by a staged mutation, if any. -/
def blockOfOp : DbOp → Option BlockRow
  | .addBlock b => some b
  | _ => none

/-- The proof row inserted by a staged mutation, if any. -/
def proofOfOp : DbOp → Option ProofRow
  | .addProof pr => some pr
  | _ => none

/-- The ledger invariant maintained by every reachable store: transaction ids
are unique; a transaction is confirmed exactly when its block reference is
set, exactly when a proof row keyed by its id exists; every proof row refers
to an existing transaction; and the block indices are exactly
`1, 2, ..., count` in sealing order. -/
def LedgerInv (s : Store) : Prop :=
  (s.txs.map TxRow.id).Nodup ∧
  (∀ t ∈ s.txs, (t.status = "confirmed" ↔ t.block_id ≠ none)) ∧
  (∀ t ∈ s.txs, (t.status = "confirmed" ↔ ∃ pr ∈ s.proofs, pr.tx_id = t.id)) ∧
  (∀ pr ∈ s.proofs, ∃ t ∈ s.txs, t.id = pr.tx_id) ∧
  s.blocks.map BlockRow.index = List.range' 1 s.blocks.length

/-- A placeholder row used only as the default of `List.getD`. -/
def dummyTxRow : TxRow := ⟨"", "", "", 0, "", 0, 0, "", "", "", none⟩

/-- A concrete payload for witnesses. -/
def samplePayload (n : Int) : TransactionPayload :=
  { from_wallet := "w1", «to» := "w2", amount := n, currency := "MXN",
    nonce := n, timestamp := 1700000000 }

/-- The fresh database after one wallet registration. -/
def sampleStore0 : Store := create_wallet emptyStore "w1" "u1" (some "PK1")

/-- One submission on the fresh database. -/
def sampleStore1 : Store :=
  submit_transaction sampleStore0 (samplePayload 1) "SIG1" "t1" "b1" 111

/-- Two submissions: still below the sealing threshold. -/
def sampleStore2 : Store :=
  submit_transaction sampleStore1 (samplePayload 2) "SIG2" "t2" "b1" 111

/-- Three submissions: the third one triggers the seal of block 1. -/
def sampleSealed3 : Store :=
  submit_transaction sampleStore2 (samplePayload 3) "SIG3" "t3" "b1" 111

/-- A store holding exactly one pending transaction. -/
def onePendingStore : Store :=
  ⟨[⟨"t1", "w1", "w2", 1, "MXN", 1, 0, "aa", "SIG", "pending", none⟩], [], [], []⟩

/-- A receipt with an empty signature field. -/
def sampleReceiptNoSig : QuantumReceipt :=
  { tx := samplePayload 1, sig_pqc := "", pubkey_pqc := "",
    block_header := ⟨1, 0, "00"⟩, merkle_proof := [] }

/-- A receipt whose proof step carries a non-hexadecimal digest. -/
def sampleReceiptBadHex : QuantumReceipt :=
  { tx := samplePayload 1, sig_pqc := "SIG", pubkey_pqc := "",
    block_header := ⟨1, 0, "00"⟩, merkle_proof := [⟨"R", "zz"⟩] }

/-- A self-consistent receipt: empty proof, root equal to the leaf digest. -/
def sampleSelfReceipt : QuantumReceipt :=
  { tx := samplePayload 1, sig_pqc := "SIG", pubkey_pqc := "",
    block_header := ⟨1, 0, sha256_hex (utf8Bytes (payloadJson (samplePayload 1)))⟩,
    merkle_proof := [] }

/-! ## Structural lemmas about the tree builder -/

theorem appendAt_length (ps : List (List ProofItem)) (j : Nat) (item : ProofItem) :
    (appendAt ps j item).length = ps.length := by
  simp [appendAt]

theorem pairLoop_proofs_length (idxMap : List Nat) :
    ∀ (rest : List String) (i : Nat) (nl : List String) (nim : List Nat)
      (ps : List (List ProofItem)),
      ((pairLoop idxMap rest i nl nim ps).2.2).length = ps.length
  | [], _, _, _, _ => rfl
  | [_], i, nl, nim, ps => by
      simp only [pairLoop]
      split_ifs <;> simp [appendAt_length]
  | _ :: _ :: rest, i, nl, nim, ps => by
      simp only [pairLoop]
      rw [pairLoop_proofs_length idxMap rest (i + 2)]
      split_ifs <;> simp [appendAt_length]

theorem merkleWhile_proofs_length :
    ∀ (fuel : Nat) (level : List String) (idxMap : List Nat)
      (ps : List (List ProofItem)),
      ((merkleWhile fuel level idxMap ps).2).length = ps.length
  | 0, _, _, _ => rfl
  | fuel + 1, level, idxMap, ps => by
      simp only [merkleWhile]
      split
      · rw [merkleWhile_proofs_length fuel]
        exact pairLoop_proofs_length idxMap level 0 [] [] ps
      · rfl

/-- The builder returns exactly one proof list per leaf. -/
theorem merkle_root_and_proofs_length (leaves : List (List Nat)) :
    ((merkle_root_and_proofs leaves).2).length = leaves.length := by
  unfold merkle_root_and_proofs
  split
  · simp_all [List.isEmpty_iff]
  · rw [merkleWhile_proofs_length]
    simp

/-! ## Session lemmas -/

/-- Staging operations never touches the committed store. -/
theorem foldl_stage (l : List DbOp) :
    ∀ (c : Store) (st : List DbOp),
      (l.map DbAction.stage).foldl runAction ⟨c, st⟩ = ⟨c, st ++ l⟩ := by
  induction l with
  | nil => intro c st; simp
  | cons op l ih =>
      intro c st
      simp only [List.map_cons, List.foldl_cons, runAction]
      rw [ih]
      simp

/-- A prefix of the seal program cut before its final action consists of
staging actions only: the commit is the last action of the program. -/
theorem seal_program_take (s : Store) (bid : String) (ts : Int) (k : Nat)
    (h : k < (seal_program s bid ts).length) :
    (seal_program s bid ts).take k = ((seal_ops s bid ts).take k).map DbAction.stage := by
  have hk : k ≤ ((seal_ops s bid ts).map DbAction.stage).length := by
    simp only [seal_program, List.length_append, List.length_map] at h ⊢
    simp at h
    omega
  rw [seal_program, List.take_append_of_le_length hk, List.map_take]

/-- A seal attempt that fails anywhere before the final commit leaves the
committed store exactly as it was. -/
theorem seal_attempt_failed_eq_self (s : Store) (bid : String) (ts : Int) (k : Nat)
    (h : k < (seal_program s bid ts).length) :
    seal_attempt_failed s bid ts k = s := by
  unfold seal_attempt_failed
  rw [seal_program_take s bid ts k h, foldl_stage]
  rfl

/-! ## Decomposition of a committed operation list -/

theorem foldl_applyOp_blocks : ∀ (l : List DbOp) (s : Store),
    (l.foldl applyOp s).blocks = s.blocks ++ l.filterMap blockOfOp
  | [], s => by simp
  | op :: l, s => by
      rw [List.foldl_cons, foldl_applyOp_blocks l]
      cases op <;> simp [applyOp, blockOfOp]

theorem foldl_applyOp_proofs : ∀ (l : List DbOp) (s : Store),
    (l.foldl applyOp s).proofs = s.proofs ++ l.filterMap proofOfOp
  | [], s => by simp
  | op :: l, s => by
      rw [List.foldl_cons, foldl_applyOp_proofs l]
      cases op <;> simp [applyOp, proofOfOp]

theorem foldl_applyOp_wallets : ∀ (l : List DbOp) (s : Store),
    (l.foldl applyOp s).wallets = s.wallets
  | [], _ => rfl
  | op :: l, s => by
      rw [List.foldl_cons, foldl_applyOp_wallets l]
      cases op <;> rfl

theorem foldl_applyOp_txs : ∀ (l : List DbOp) (s : Store),
    (l.foldl applyOp s).txs = s.txs.map (fun t => l.foldl stepTx t)
  | [], s => by simp
  | op :: l, s => by
      rw [List.foldl_cons, foldl_applyOp_txs l]
      cases op <;> simp [applyOp, stepTx, List.map_map, Function.comp]

theorem confirmRow_id (bid : String) (t : TxRow) : (confirmRow bid t).id = t.id := rfl

theorem confirmRow_idem (bid : String) (t : TxRow) :
    confirmRow bid (confirmRow bid t) = confirmRow bid t := rfl

theorem flatMap_pairOps_filterMap_blockOfOp (bid : String) :
    ∀ l : List (TxRow × List ProofItem),
      (l.flatMap (pairOps bid)).filterMap blockOfOp = []
  | [] => rfl
  | tp :: l => by
      simp [pairOps, blockOfOp, List.flatMap_cons, List.filterMap_append,
        List.filterMap_cons, flatMap_pairOps_filterMap_blockOfOp bid l]

theorem flatMap_pairOps_filterMap_proofOfOp (bid : String) :
    ∀ l : List (TxRow × List ProofItem),
      (l.flatMap (pairOps bid)).filterMap proofOfOp =
        l.map (fun tp => (⟨tp.1.id, bid, tp.2⟩ : ProofRow))
  | [] => rfl
  | tp :: l => by
      simp [pairOps, proofOfOp, List.flatMap_cons, List.filterMap_append,
        List.filterMap_cons, flatMap_pairOps_filterMap_proofOfOp bid l]

/-- Folding the per-transaction mutations over one row confirms it exactly
when its id is among the snapshot ids (re-confirmation is idempotent, so no
uniqueness hypothesis is needed here). -/
theorem foldl_stepTx_flatMap_pairOps (bid : String) :
    ∀ (l : List (TxRow × List ProofItem)) (t : TxRow),
      List.foldl stepTx t (l.flatMap (pairOps bid)) =
        if t.id ∈ l.map (fun tp => tp.1.id) then confirmRow bid t else t
  | [], t => by simp
  | tp :: l, t => by
      simp only [List.flatMap_cons, pairOps, List.foldl_append, List.foldl_cons,
        List.foldl_nil, List.map_cons, List.mem_cons]
      by_cases h : t.id = tp.1.id
      · simp only [stepTx, if_pos h]
        rw [foldl_stepTx_flatMap_pairOps bid l]
        simp [h, confirmRow_id, confirmRow_idem]
      · simp only [stepTx]
        rw [if_neg h, foldl_stepTx_flatMap_pairOps bid l,
          if_congr (or_iff_right h) rfl rfl]

/-! ## Characterization of a successful seal -/

theorem mem_pendingTxs {s : Store} {t : TxRow} :
    t ∈ pendingTxs s ↔ t ∈ s.txs ∧ t.status = "pending" := by
  simp [pendingTxs, List.mem_filter]

/-- Sealing on an empty pending set is a no-op (the early return). -/
theorem seal_block_of_pendingTxs_nil (s : Store) (bid : String) (ts : Int)
    (h : pendingTxs s = []) : seal_block s bid ts = s := by
  simp [seal_block, h]

theorem seal_block_committed (s : Store) (bid : String) (ts : Int)
    (h : pendingTxs s ≠ []) :
    seal_block s bid ts = (seal_ops s bid ts).foldl applyOp s := by
  unfold seal_block
  rw [if_neg (by simpa [List.isEmpty_iff] using h)]
  rw [seal_program, List.foldl_append, foldl_stage]
  simp [runAction]

theorem seal_block_blocks (s : Store) (bid : String) (ts : Int)
    (h : pendingTxs s ≠ []) :
    (seal_block s bid ts).blocks = s.blocks ++
      [⟨bid, s.blocks.length + 1, ts,
        (merkle_root_and_proofs ((pendingTxs s).map fun t => utf8Bytes t.payload_hash)).1⟩] := by
  rw [seal_block_committed s bid ts h]
  simp only [seal_ops]
  rw [foldl_applyOp_blocks]
  simp [blockOfOp, List.filterMap_cons, flatMap_pairOps_filterMap_blockOfOp]

theorem seal_block_proofs (s : Store) (bid : String) (ts : Int)
    (h : pendingTxs s ≠ []) :
    (seal_block s bid ts).proofs = s.proofs ++
      (List.zip (pendingTxs s)
        (merkle_root_and_proofs ((pendingTxs s).map fun t => utf8Bytes t.payload_hash)).2).map
        (fun tp => (⟨tp.1.id, bid, tp.2⟩ : ProofRow)) := by
  rw [seal_block_committed s bid ts h]
  simp only [seal_ops]
  rw [foldl_applyOp_proofs]
  simp [proofOfOp, List.filterMap_cons, flatMap_pairOps_filterMap_proofOfOp]

theorem seal_block_wallets (s : Store) (bid : String) (ts : Int)
    (h : pendingTxs s ≠ []) :
    (seal_block s bid ts).wallets = s.wallets := by
  rw [seal_block_committed s bid ts h, foldl_applyOp_wallets]

/-- The proofs come positionally paired with the snapshot rows, so the
tx_ids of the zipped pairs are exactly the snapshot ids. -/
theorem zip_proofs_fst_ids (s : Store) :
    (List.zip (pendingTxs s)
      (merkle_root_and_proofs ((pendingTxs s).map fun t => utf8Bytes t.payload_hash)).2).map
      (fun tp => tp.1.id) = (pendingTxs s).map TxRow.id := by
  have hlen : (pendingTxs s).length ≤
      ((merkle_root_and_proofs ((pendingTxs s).map fun t => utf8Bytes t.payload_hash)).2).length := by
    rw [merkle_root_and_proofs_length, List.length_map]
  have hcomp : (fun (tp : TxRow × List ProofItem) => tp.1.id) = TxRow.id ∘ Prod.fst := rfl
  rw [hcomp, ← List.map_map, List.map_fst_zip _ _ hlen]

theorem new_proofs_tx_ids (s : Store) (bid : String) :
    ((List.zip (pendingTxs s)
      (merkle_root_and_proofs ((pendingTxs s).map fun t => utf8Bytes t.payload_hash)).2).map
      (fun tp => (⟨tp.1.id, bid, tp.2⟩ : ProofRow))).map ProofRow.tx_id =
      (pendingTxs s).map TxRow.id := by
  rw [List.map_map]
  exact zip_proofs_fst_ids s

theorem seal_block_txs (s : Store) (bid : String) (ts : Int)
    (h : pendingTxs s ≠ []) :
    (seal_block s bid ts).txs = s.txs.map
      (fun t => if t.id ∈ (pendingTxs s).map TxRow.id then confirmRow bid t else t) := by
  rw [seal_block_committed s bid ts h]
  simp only [seal_ops]
  rw [foldl_applyOp_txs]
  refine congrArg (s.txs.map ·) (funext fun t => ?_)
  rw [List.foldl_cons]
  have hb : stepTx t (DbOp.addBlock ⟨bid, s.blocks.length + 1, ts,
      (merkle_root_and_proofs ((pendingTxs s).map fun t => utf8Bytes t.payload_hash)).1⟩) = t := rfl
  rw [hb, foldl_stepTx_flatMap_pairOps, zip_proofs_fst_ids]

/-! ## Preservation of the ledger invariant -/

theorem range'_one_concat (n : Nat) :
    List.range' 1 (n + 1) = List.range' 1 n ++ [n + 1] := by
  rw [show n + 1 = 1 + n from Nat.add_comm n 1, ← List.range'_append_1 1 n 1]
  congr 1

theorem mem_new_proofs_tx_id_iff (s : Store) (bid : String) (x : String) :
    (∃ pr ∈ (List.zip (pendingTxs s)
      (merkle_root_and_proofs ((pendingTxs s).map fun t => utf8Bytes t.payload_hash)).2).map
      (fun tp => (⟨tp.1.id, bid, tp.2⟩ : ProofRow)), pr.tx_id = x) ↔
    x ∈ (pendingTxs s).map TxRow.id := by
  rw [← new_proofs_tx_ids s bid]
  constructor
  · rintro ⟨pr, hpr, he⟩
    rw [← he]
    exact List.mem_map_of_mem _ hpr
  · intro hx
    exact List.mem_map.mp hx

theorem ledgerInv_empty : LedgerInv emptyStore := by
  refine ⟨?_, ?_, ?_, ?_, ?_⟩ <;> simp [emptyStore]

theorem ledgerInv_create_wallet (s : Store) (wid uid : String) (pk : Option String)
    (h : LedgerInv s) : LedgerInv (create_wallet s wid uid pk) := by
  obtain ⟨hnd, hiff1, hiff2, href, hblk⟩ := h
  exact ⟨hnd, hiff1, hiff2, href, hblk⟩

theorem ledgerInv_seal (s : Store) (bid : String) (ts : Int) (h : LedgerInv s) :
    LedgerInv (seal_block s bid ts) := by
  by_cases hp : pendingTxs s = []
  · rw [seal_block_of_pendingTxs_nil s bid ts hp]; exact h
  · obtain ⟨hnd, hiff1, hiff2, href, hblk⟩ := h
    have htxs := seal_block_txs s bid ts hp
    have hblocks := seal_block_blocks s bid ts hp
    have hproofs := seal_block_proofs s bid ts hp
    refine ⟨?_, ?_, ?_, ?_, ?_⟩
    · rw [htxs, List.map_map]
      have hfun : (TxRow.id ∘ fun t =>
          if t.id ∈ (pendingTxs s).map TxRow.id then confirmRow bid t else t) = TxRow.id := by
        funext t
        by_cases hm : t.id ∈ (pendingTxs s).map TxRow.id <;>
          simp [hm, Function.comp, confirmRow_id]
      rw [hfun]
      exact hnd
    · intro t' ht'
      rw [htxs] at ht'
      obtain ⟨t, ht, rfl⟩ := List.mem_map.mp ht'
      by_cases hm : t.id ∈ (pendingTxs s).map TxRow.id
      · rw [if_pos hm]
        constructor
        · intro _
          simp [confirmRow]
        · intro _
          rfl
      · rw [if_neg hm]
        exact hiff1 t ht
    · intro t' ht'
      rw [htxs] at ht'
      rw [hproofs]
      obtain ⟨t, ht, rfl⟩ := List.mem_map.mp ht'
      by_cases hm : t.id ∈ (pendingTxs s).map TxRow.id
      · rw [if_pos hm]
        have hex := (mem_new_proofs_tx_id_iff s bid t.id).mpr hm
        obtain ⟨pr, hpr, he⟩ := hex
        refine iff_of_true rfl ⟨pr, List.mem_append_right _ hpr, ?_⟩
        rw [confirmRow_id]
        exact he
      · rw [if_neg hm]
        constructor
        · intro hc
          obtain ⟨pr, hpr, he⟩ := (hiff2 t ht).mp hc
          exact ⟨pr, List.mem_append_left _ hpr, he⟩
        · rintro ⟨pr, hpr, he⟩
          rcases List.mem_append.mp hpr with h1 | h2
          · exact (hiff2 t ht).mpr ⟨pr, h1, he⟩
          · exact absurd ((mem_new_proofs_tx_id_iff s bid t.id).mp ⟨pr, h2, he⟩) hm
    · intro pr hpr
      rw [hproofs] at hpr
      rw [htxs]
      rcases List.mem_append.mp hpr with h1 | h2
      · obtain ⟨u, hu, hid⟩ := href pr h1
        refine ⟨_, List.mem_map_of_mem _ hu, ?_⟩
        by_cases hm : u.id ∈ (pendingTxs s).map TxRow.id
        · rw [if_pos hm, confirmRow_id]
          exact hid
        · rw [if_neg hm]
          exact hid
      · have hmem := (mem_new_proofs_tx_id_iff s bid pr.tx_id).mp ⟨pr, h2, rfl⟩
        obtain ⟨u, hu, hid⟩ := List.mem_map.mp hmem
        have hu' : u ∈ s.txs := (mem_pendingTxs.mp hu).1
        have hm : u.id ∈ (pendingTxs s).map TxRow.id := List.mem_map_of_mem _ hu
        refine ⟨_, List.mem_map_of_mem _ hu', ?_⟩
        rw [if_pos hm, confirmRow_id]
        exact hid
    · rw [hblocks]
      simp only [List.map_append, List.map_cons, List.map_nil, List.length_append,
        List.length_cons, List.length_nil]
      rw [hblk]
      exact (range'_one_concat s.blocks.length).symm

theorem ledgerInv_append_pending (s : Store) (row : TxRow)
    (hst : row.status = "pending") (hbid : row.block_id = none)
    (fresh : ∀ t ∈ s.txs, t.id ≠ row.id) (h : LedgerInv s) :
    LedgerInv { s with txs := s.txs ++ [row] } := by
  obtain ⟨hnd, hiff1, hiff2, href, hblk⟩ := h
  refine ⟨?_, ?_, ?_, ?_, ?_⟩
  · simp only [List.map_append, List.map_cons, List.map_nil]
    refine List.Nodup.append hnd (List.nodup_singleton _) ?_
    intro x hx hx'
    simp only [List.mem_singleton] at hx'
    obtain ⟨u, hu, hid⟩ := List.mem_map.mp hx
    exact fresh u hu (hid.trans hx')
  · intro t ht
    rcases List.mem_append.mp ht with h1 | h2
    · exact hiff1 t h1
    · rw [List.mem_singleton] at h2
      subst h2
      rw [hst, hbid]
      decide
  · intro t ht
    rcases List.mem_append.mp ht with h1 | h2
    · exact hiff2 t h1
    · rw [List.mem_singleton] at h2
      subst h2
      rw [hst]
      constructor
      · intro hc
        exact absurd hc (by decide)
      · rintro ⟨pr, hpr, he⟩
        obtain ⟨u, hu, hid⟩ := href pr hpr
        exact absurd (hid.trans he) (fresh u hu)
  · intro pr hpr
    obtain ⟨u, hu, hid⟩ := href pr hpr
    exact ⟨u, List.mem_append_left _ hu, hid⟩
  · exact hblk

theorem ledgerInv_submit (s : Store) (p : TransactionPayload) (sig tx_id bid : String)
    (ts : Int) (fresh : ∀ t ∈ s.txs, t.id ≠ tx_id) (h : LedgerInv s) :
    LedgerInv (submit_transaction s p sig tx_id bid ts) := by
  simp only [submit_transaction]
  have h1 : LedgerInv { s with txs := s.txs ++
      [{ id := tx_id, wallet_id := p.from_wallet, to_wallet := p.«to»,
         amount := p.amount, currency := p.currency, nonce := p.nonce,
         timestamp := p.timestamp,
         payload_hash := sha256_hex (utf8Bytes (payloadJson p)),
         sig_pqc := sig, status := "pending", block_id := none }] } :=
    ledgerInv_append_pending s _ rfl rfl fresh h
  split
  · exact ledgerInv_seal _ bid ts h1
  · exact h1

/-- Every reachable ledger state satisfies the ledger invariant. -/
theorem ledgerInv_reachable : ∀ s : Store, Reachable s → LedgerInv s := by
  intro s h
  induction h with
  | init => exact ledgerInv_empty
  | wallet s' wid uid pk _ ih => exact ledgerInv_create_wallet s' wid uid pk ih
  | submit s' p sig tid bid ts _ fresh ih => exact ledgerInv_submit s' p sig tid bid ts fresh ih
  | «seal» s' bid ts _ ih => exact ledgerInv_seal s' bid ts ih

/-! ## Reachability of the sample stores -/

theorem reachable_sampleStore0 : Reachable sampleStore0 :=
  Reachable.wallet emptyStore "w1" "u1" (some "PK1") Reachable.init

theorem reachable_sampleStore1 : Reachable sampleStore1 :=
  Reachable.submit sampleStore0 (samplePayload 1) "SIG1" "t1" "b1" 111
    reachable_sampleStore0 (by decide)

theorem reachable_sampleStore2 : Reachable sampleStore2 :=
  Reachable.submit sampleStore1 (samplePayload 2) "SIG2" "t2" "b1" 111
    reachable_sampleStore1 (by decide)

theorem reachable_sampleSealed3 : Reachable sampleSealed3 :=
  Reachable.submit sampleStore2 (samplePayload 3) "SIG3" "t3" "b1" 111
    reachable_sampleStore2 (by decide)

/-! ## The claims -/

set_option maxRecDepth 8000000 in
set_option maxHeartbeats 8000000 in
/-- Claim C1 — code bug, shown by evaluating the source on its failing input.
The round-trip property fails on the code: for the 3-leaf batch
`[b"a", b"b", b"c"]`, replaying the proof that `merkle_root_and_proofs`
issues for leaf 1 (starting from that leaf's digest, hashing the sibling on
the left for an `"L"` step and on the right otherwise) does not reproduce
the batch root — the issued proof is a single step although the tree has
two levels, so the replay stops at the level-1 parent.  Since the sealing
threshold is 3, every sealed block is such a batch, and `verify_receipt`
rejects the receipts `get_receipt` assembles for it. -/
theorem roundtrip_fails_on_sealed_batch :
    (replayProof (sha256_hex [98]) ((merkle_root_and_proofs [[97], [98], [99]]).2.getD 1 []) ≠
      some (merkle_root_and_proofs [[97], [98], [99]]).1) ∧
    ((merkle_root_and_proofs [[97], [98], [99]]).2.getD 1 []).length = 1 :=
  ⟨by decide, by decide⟩

set_option maxRecDepth 8000000 in
set_option maxHeartbeats 8000000 in
/-- Claim C2 — code bug, shown by evaluating the source on its failing input.
For a batch of three leaves there are two tree levels, so one sibling step
per level per leaf would give every proof length 2; the source instead
returns proofs of lengths 3, 1 and 2, and the last leaf's two steps (its
self-pair at level 0 recorded twice, with both an `"R"` and an `"L"` tag)
both come from level 0, not one per level with the left-child side tag. -/
theorem proof_shape_violated_on_three_leaves :
    ((merkle_root_and_proofs [[97], [98], [99]]).2.map List.length = [3, 1, 2]) ∧
    (((merkle_root_and_proofs [[97], [98], [99]]).2.getD 2 []).map ProofItem.dir = ["R", "L"]) :=
  ⟨by decide, by decide⟩

/-- Claim C3 — seal atomicity: a seal attempt that fails at any point before
its single final commit (the session rolls back) leaves the committed store
exactly as it was: no block row, no proof row, every snapshotted transaction
still pending with no block reference, and a later seal attempt re-includes
exactly the same transactions. -/
theorem seal_atomicity (s : Store) (bid : String) (ts : Int) (k : Nat)
    (hk : k < (seal_program s bid ts).length)
    (hpb : ∀ t ∈ s.txs, t.status = "pending" → t.block_id = none) :
    seal_attempt_failed s bid ts k = s ∧
    (seal_attempt_failed s bid ts k).blocks = s.blocks ∧
    (seal_attempt_failed s bid ts k).proofs = s.proofs ∧
    pendingTxs (seal_attempt_failed s bid ts k) = pendingTxs s ∧
    (∀ t ∈ pendingTxs s, t ∈ (seal_attempt_failed s bid ts k).txs ∧
      t.status = "pending" ∧ t.block_id = none) ∧
    (∀ bid2 ts2, seal_block (seal_attempt_failed s bid ts k) bid2 ts2 = seal_block s bid2 ts2) := by
  have he := seal_attempt_failed_eq_self s bid ts k hk
  refine ⟨he, by rw [he], by rw [he], by rw [he], ?_, fun bid2 ts2 => by rw [he]⟩
  intro t ht
  obtain ⟨ht', hst⟩ := mem_pendingTxs.mp ht
  exact ⟨by rw [he]; exact ht', hst, hpb t ht' hst⟩

/-- Witness for C3 at a concrete store with one pending transaction and
failure point 1 (after staging the block row, before the commit). -/
theorem seal_atomicity_witness :
    seal_attempt_failed onePendingStore "b9" 7 1 = onePendingStore :=
  (seal_atomicity onePendingStore "b9" 7 1 (by decide) (by decide)).1

/-- Claim C4 — transaction lifecycle invariant: in every reachable store, a
transaction is confirmed exactly when its block reference is set, exactly
when a proof row keyed by its id exists.  Submission creates the row as
pending with no block reference and no proof, and sealing establishes all
three facts together, which is what the reachability induction checks. -/
theorem lifecycle_invariant (s : Store) (hs : Reachable s) :
    ∀ t ∈ s.txs, (t.status = "confirmed" ↔ t.block_id ≠ none) ∧
      (t.status = "confirmed" ↔ ∃ pr ∈ s.proofs, pr.tx_id = t.id) := by
  obtain ⟨_, hiff1, hiff2, _, _⟩ := ledgerInv_reachable s hs
  intro t ht
  exact ⟨hiff1 t ht, hiff2 t ht⟩

set_option maxRecDepth 8000000 in
set_option maxHeartbeats 8000000 in
/-- Witness for C4 at the reachable store with one pending submission. -/
theorem lifecycle_invariant_witness :
    ((sampleStore1.txs.getD 0 dummyTxRow).status = "confirmed" ↔
      (sampleStore1.txs.getD 0 dummyTxRow).block_id ≠ none) ∧
    ((sampleStore1.txs.getD 0 dummyTxRow).status = "confirmed" ↔
      ∃ pr ∈ sampleStore1.proofs, pr.tx_id = (sampleStore1.txs.getD 0 dummyTxRow).id) :=
  lifecycle_invariant sampleStore1 reachable_sampleStore1 _ (by decide)

/-- Claim C5 — monotonic sealing: in every reachable store the block index
values are exactly 1, 2, ..., count in sealing order (no gaps, no
duplicates; the first block gets index 1), and a successful seal on a
non-empty pending set appends exactly the next index, one greater than the
previous count. -/
theorem monotonic_sealing (s : Store) (hs : Reachable s) :
    s.blocks.map BlockRow.index = List.range' 1 s.blocks.length ∧
    ∀ bid ts, pendingTxs s ≠ [] →
      (seal_block s bid ts).blocks.map BlockRow.index =
        s.blocks.map BlockRow.index ++ [s.blocks.length + 1] := by
  obtain ⟨_, _, _, _, hblk⟩ := ledgerInv_reachable s hs
  refine ⟨hblk, fun bid ts hp => ?_⟩
  rw [seal_block_blocks s bid ts hp]
  simp

set_option maxRecDepth 8000000 in
set_option maxHeartbeats 8000000 in
/-- Witness for C5 at the sealed three-transaction store and at a seal of
the two-pending store. -/
theorem monotonic_sealing_witness :
    sampleSealed3.blocks.map BlockRow.index = List.range' 1 sampleSealed3.blocks.length ∧
    (seal_block sampleStore2 "b7" 222).blocks.map BlockRow.index =
      sampleStore2.blocks.map BlockRow.index ++ [sampleStore2.blocks.length + 1] :=
  ⟨(monotonic_sealing sampleSealed3 reachable_sampleSealed3).1,
   (monotonic_sealing sampleStore2 reachable_sampleStore2).2 "b7" 222 (by decide)⟩

/-- Claim C6 — empty-batch no-op: sealing with no pending transaction
returns the store unchanged (no block row, no proof row, no transaction
mutated). -/
theorem empty_batch_noop (s : Store) (bid : String) (ts : Int)
    (h : pendingTxs s = []) : seal_block s bid ts = s :=
  seal_block_of_pendingTxs_nil s bid ts h

/-- Witness for C6 on the fresh database. -/
theorem empty_batch_noop_witness : seal_block emptyStore "b0" 0 = emptyStore :=
  empty_batch_noop emptyStore "b0" 0 rfl

/-- Claim C7 — receipt assembly errors: `get_receipt` fails with the 404
NotFound error when no transaction has the given id, fails with the 400
NotYetConfirmed error when the transaction found is still pending (never a
partial receipt), and returns a receipt only when the transaction found is
confirmed. -/
theorem receipt_assembly_errors (s : Store) (tx_id : String) :
    ((∀ t ∈ s.txs, t.id ≠ tx_id) →
      get_receipt s tx_id = .error (404, "Transaction not found")) ∧
    (∀ tx, s.txs.find? (fun t => t.id == tx_id) = some tx → tx.status = "pending" →
      get_receipt s tx_id = .error (400, "Transaction not yet confirmed")) ∧
    (∀ r, get_receipt s tx_id = .ok r →
      ∃ tx, s.txs.find? (fun t => t.id == tx_id) = some tx ∧ tx.status = "confirmed") := by
  refine ⟨?_, ?_, ?_⟩
  · intro h
    have hf : s.txs.find? (fun t => t.id == tx_id) = none := by
      rw [List.find?_eq_none]
      intro t ht
      simpa using h t ht
    simp [get_receipt, hf]
  · intro tx hf hp
    simp only [get_receipt, hf]
    rw [hp]
    rw [if_pos (show ("pending" : String) ≠ "confirmed" from by decide)]
  · intro r h
    unfold get_receipt at h
    cases hf : s.txs.find? (fun t => t.id == tx_id) with
    | none =>
        rw [hf] at h
        simp at h
    | some tx =>
        rw [hf] at h
        by_cases hs : tx.status = "confirmed"
        · exact ⟨tx, rfl, hs⟩
        · simp [hs] at h

set_option maxRecDepth 8000000 in
set_option maxHeartbeats 8000000 in
/-- Witness for C7: a missing id on the sealed store and the pending
transaction of the one-submission store. -/
theorem receipt_assembly_errors_witness :
    get_receipt sampleStore1 "nope" = .error (404, "Transaction not found") ∧
    get_receipt sampleStore1 "t1" = .error (400, "Transaction not yet confirmed") :=
  ⟨(receipt_assembly_errors sampleStore1 "nope").1 (by decide),
   (receipt_assembly_errors sampleStore1 "t1").2.1 (sampleStore1.txs.getD 0 dummyTxRow)
     (by decide) (by decide)⟩

/-- Claim C8 — verifier totality: `verify_receipt` always returns a verdict
record; every non-valid verdict carries a human-readable reason (the
exception handler turns the only possible exception, a non-hexadecimal hash
field, into such a verdict), and an empty signature yields the
"Missing signature" verdict rather than an error. -/
theorem verifier_totality (r : QuantumReceipt) :
    ((verify_receipt r).valid = true ∨ ((verify_receipt r).reason).isSome = true) ∧
    (r.sig_pqc = "" → verify_receipt r = ⟨false, some "Missing signature"⟩) := by
  constructor
  · simp only [verify_receipt]
    by_cases hs : r.sig_pqc = ""
    · rw [if_pos hs]
      right
      rfl
    · rw [if_neg hs]
      cases hrep : replayProof (sha256_hex (utf8Bytes (payloadJson r.tx))) r.merkle_proof with
      | none => right; rfl
      | some d =>
          by_cases hlow : lowerStr d = lowerStr r.block_header.merkle_root
          · simp [hlow]
          · simp [hlow]
  · intro hs
    simp only [verify_receipt]
    rw [if_pos hs]

/-- Witness for C8: the empty-signature receipt and the receipt with a
non-hexadecimal proof digest. -/
theorem verifier_totality_witness :
    verify_receipt sampleReceiptNoSig = ⟨false, some "Missing signature"⟩ ∧
    ((verify_receipt sampleReceiptBadHex).valid = true ∨
      ((verify_receipt sampleReceiptBadHex).reason).isSome = true) :=
  ⟨(verifier_totality sampleReceiptNoSig).2 rfl,
   (verifier_totality sampleReceiptBadHex).1⟩

/-- Claim C9 — implicit: `verify_receipt` is a pure function of the receipt
alone (its embedding takes no `Store`), so any receipt whose signature field
is non-empty and whose header root matches, case-insensitively, the replay
of its own proof from the digest of its canonical payload JSON is accepted —
whether or not any such block was ever sealed. -/
theorem self_consistent_receipts_verify (r : QuantumReceipt) (hs : r.sig_pqc ≠ "")
    (d : String)
    (hrep : replayProof (sha256_hex (utf8Bytes (payloadJson r.tx))) r.merkle_proof = some d)
    (hlow : lowerStr d = lowerStr r.block_header.merkle_root) :
    verify_receipt r = ⟨true, none⟩ := by
  simp only [verify_receipt]
  rw [if_neg hs, hrep]
  simp [hlow]

/-- Witness for C9: a self-consistent receipt over a block the ledger never
sealed (header index 1, sealed_at 0, empty proof, root equal to the payload
digest) is accepted. -/
theorem self_consistent_receipts_verify_witness :
    verify_receipt sampleSelfReceipt = ⟨true, none⟩ :=
  self_consistent_receipts_verify sampleSelfReceipt (by decide)
    (sha256_hex (utf8Bytes (payloadJson (samplePayload 1)))) rfl rfl

/-- Claim C10 — implicit: in the replay loop a step counts as a left-hand
sibling only when its dir field is exactly "L"; any other dir value — "R",
lowercase "l", arbitrary strings — is treated identically to "R" (current
digest concatenated before the sibling), with no validation of the tag. -/
theorem side_tag_default (cur : String) (item : ProofItem) :
    (item.dir ≠ "L" → replayStep cur item = replayStep cur ⟨"R", item.hash⟩) ∧
    (item.dir = "L" → ∀ sib curB, hexDecode item.hash = some sib →
      hexDecode cur = some curB →
      replayStep cur item = some (sha256_hex (sib ++ curB))) := by
  constructor
  · intro hne
    unfold replayStep
    cases h1 : hexDecode item.hash <;> cases h2 : hexDecode cur <;>
      simp [h1, h2, hne]
  · intro hL sib curB h1 h2
    unfold replayStep
    simp [h1, h2, hL]

/-- Witness for C10: the lowercase tag "l" behaves exactly like "R", and an
"L" step hashes the sibling bytes first. -/
theorem side_tag_default_witness :
    replayStep "ab" ⟨"l", "cd"⟩ = replayStep "ab" ⟨"R", "cd"⟩ ∧
    replayStep "00" ⟨"L", "11"⟩ = some (sha256_hex ([17] ++ [0])) :=
  ⟨(side_tag_default "ab" ⟨"l", "cd"⟩).1 (by decide),
   (side_tag_default "00" ⟨"L", "11"⟩).2 rfl [17] [0] rfl rfl⟩

end QuantumWallet
